import Mathlib

/-!
Shallow embedding of the Rust crate `aont` (file src/lib.rs), which implements
Rivest's All-or-Nothing Transform over SHA-1-sized blocks, together with proofs
of the specification's claims about it.

Modelling conventions:

* Bytes (`u8`) are modelled as `Nat`; the only arithmetic performed on bytes is
  XOR (`Nat.xor`), which cannot overflow, so no `% 256` reduction is needed.
* `Sha1::digest` comes from the external `sha1` crate (not part of this
  repository); following the spec's collaborator contract it is modelled as a
  parameter `H : List Nat → List Nat` whose output length is `blocksize`
  (`Sha1::output_size() = 20`), supplied as a hypothesis where needed.
  Determinism of the hash is automatic because Lean functions are pure.
* `thread_rng` is likewise external; the freshly generated random block `R`
  (the first `blocksize` bytes of the source's `r_in` buffer) is a parameter.
* Rust panics and assertion failures are modelled as `Except.error` values of
  type `AontError`: the `assert_eq!` on the public parameter length becomes
  `invalidParameterLength`, the explicit block-alignment `panic!` becomes
  `invalidMessageLength`, and the debug-build panic of the usize subtraction
  `message.len() - blocksize` in `decode_sha1` (reached when the input is
  shorter than one block, since no explicit length check exists) becomes
  `subtractOverflow`.  The order of the checks mirrors the source exactly:
  `encode_sha1` asserts the public length first and then checks alignment;
  `decode_sha1` checks alignment first, then the public length, and only then
  performs the subtraction.
* The source's loop counter `i` is a `u32`; it is modelled as `Nat`, and
  `i.to_be_bytes()` is modelled by `be32`, which reduces each extracted byte
  `% 256` and therefore agrees with the wrapping `u32` semantics for every
  `Nat` counter value.
* The `for chunk in message.chunks(blocksize)` loops run, on the block-aligned
  inputs that survive the checks, exactly `len / blocksize` times over exact
  20-byte chunks; they are modelled by structural recursion on that block
  count, taking and dropping `blocksize` bytes per step.
-/

deriving instance DecidableEq for Except

namespace Aont

/-- Model of `xor_slice`: element-wise XOR of two byte buffers (the source
asserts equal lengths and overwrites `dst`; every call site passes
equal-length buffers). -/
def xor_slice (dst src : List Nat) : List Nat :=
  List.zipWith (· ^^^ ·) dst src

/-- Block size, `Sha1::output_size()`: 20 bytes. -/
def blocksize : Nat := 20

/-- An all-zero block, the initial value of the source's `sum` accumulator
and of the `r_in` buffer. -/
def zeroBlock : List Nat := List.replicate blocksize 0

/-- Model of `(i as u32).to_be_bytes()`: the 4-byte big-endian serialization
of the counter, with `u32` wrap-around semantics. -/
def be32 (i : Nat) : List Nat :=
  [i / 2 ^ 24 % 256, i / 2 ^ 16 % 256, i / 2 ^ 8 % 256, i % 256]

/-- The failure modes of `encode_sha1` and `decode_sha1` (all are process
aborts in the Rust source): the public-length `assert_eq!`, the
block-alignment `panic!`, and the usize underflow panic of
`message.len() - blocksize` in `decode_sha1`. -/
inductive AontError where
  | invalidParameterLength : AontError
  | invalidMessageLength : AontError
  | subtractOverflow : AontError
deriving DecidableEq

/-- The encoder's single loop over message chunks: for each 20-byte chunk at
counter `i`, mask it with `H (R ++ be32 i)` and fold
`H (public ++ masked ++ be32 i)` into the checksum accumulator `sum`.
Returns the concatenated masked blocks and the final accumulator. -/
def encodeLoop (H : List Nat → List Nat) (R public : List Nat) :
    Nat → List Nat → Nat → List Nat → List Nat × List Nat
  | 0, _, _, sum => ([], sum)
  | fuel + 1, msg, i, sum =>
    let t := xor_slice (msg.take blocksize) (H (R ++ be32 i))
    let sum' := xor_slice sum (H (public ++ t ++ be32 i))
    let rest := encodeLoop H R public fuel (msg.drop blocksize) (i + 1) sum'
    (t ++ rest.1, rest.2)

/-- Model of `encode_sha1 (message, public)`, with the external hash `H` and
the generated random block `R` passed explicitly. -/
def encode_sha1 (H : List Nat → List Nat) (R message public : List Nat) :
    Except AontError (List Nat) :=
  if public.length ≠ blocksize then
    Except.error AontError.invalidParameterLength
  else if message.length % blocksize ≠ 0 then
    Except.error AontError.invalidMessageLength
  else
    let r := encodeLoop H R public (message.length / blocksize) message 1 zeroBlock
    Except.ok (r.1 ++ xor_slice r.2 R)

/-- Pass 1 of the decoder: fold `H (public ++ chunk ++ be32 i)` into `sum`
for every chunk with `i < blocks`; for the remaining (final) chunk, recover
the random block as `chunk XOR sum`.  Mirrors the `i < blocks` branch of the
source loop; `r` models the first `blocksize` bytes of `r_in`. -/
def decodePass1 (H : List Nat → List Nat) (public : List Nat) (blocks : Nat) :
    Nat → List Nat → Nat → List Nat → List Nat → List Nat × List Nat
  | 0, _, _, sum, r => (sum, r)
  | fuel + 1, msg, i, sum, r =>
    if i < blocks then
      decodePass1 H public blocks fuel (msg.drop blocksize) (i + 1)
        (xor_slice sum (H (public ++ msg.take blocksize ++ be32 i))) r
    else
      decodePass1 H public blocks fuel (msg.drop blocksize) (i + 1) sum
        (xor_slice (msg.take blocksize) sum)

/-- Pass 2 of the decoder: unmask each of the first `fuel` chunks with
`H (R ++ be32 i)` for counters starting at `i`. -/
def decodePass2 (H : List Nat → List Nat) (R : List Nat) :
    Nat → List Nat → Nat → List Nat
  | 0, _, _ => []
  | fuel + 1, msg, i =>
    xor_slice (msg.take blocksize) (H (R ++ be32 i)) ++
      decodePass2 H R fuel (msg.drop blocksize) (i + 1)

/-- Model of `decode_sha1 (message, public)` with the external hash `H`
passed explicitly. -/
def decode_sha1 (H : List Nat → List Nat) (message public : List Nat) :
    Except AontError (List Nat) :=
  let blocks := message.length / blocksize
  if message.length % blocksize ≠ 0 then
    Except.error AontError.invalidMessageLength
  else if public.length ≠ blocksize then
    Except.error AontError.invalidParameterLength
  else if message.length < blocksize then
    Except.error AontError.subtractOverflow
  else
    let p1 := decodePass1 H public blocks blocks message 1 zeroBlock zeroBlock
    Except.ok (decodePass2 H p1.2 (blocks - 1) message 1)

/-! Specification-side definitions, written from the spec's words (section 3
DATA MODEL and section 4.3), for the refinement claim about the output
layout of the encoder. -/

/-- Message block `j` (1-indexed) of a buffer, per the spec's decomposition
into ordered blocks. -/
def specChunk (m : List Nat) (j : Nat) : List Nat :=
  (m.drop (blocksize * (j - 1))).take blocksize

/-- Spec formula for outer-masked block `j`: `message_j XOR H(R ++ BE32 j)`. -/
def specTransformed (H : List Nat → List Nat) (R m : List Nat) (j : Nat) :
    List Nat :=
  xor_slice (specChunk m j) (H (R ++ be32 j))

/-- The per-block checksum contributions
`H(P ++ transformed_i ++ BE32 i)` for `i` in `1..=n`. -/
def checksumContribs (H : List Nat → List Nat) (R m public : List Nat)
    (n : Nat) : List (List Nat) :=
  (List.range n).map fun k =>
    H (public ++ specTransformed H R m (k + 1) ++ be32 (k + 1))

/-- The spec's checksum `S`: the XOR-fold of the per-block contributions. -/
def specS (H : List Nat → List Nat) (R m public : List Nat) (n : Nat) :
    List Nat :=
  (checksumContribs H R m public n).foldl xor_slice zeroBlock

/-- Spec formula for the whole transformed output: the `n` outer-masked
blocks followed by the trailer `S XOR R`. -/
def spec_encode (H : List Nat → List Nat) (R m public : List Nat) : List Nat :=
  ((List.range (m.length / blocksize)).map fun k =>
      specTransformed H R m (k + 1)).flatten ++
    xor_slice (specS H R m public (m.length / blocksize)) R

/-! Basic facts about `xor_slice`, `blocksize` and `zeroBlock`. -/

theorem blocksize_pos : 0 < blocksize := by decide

theorem zeroBlock_length : zeroBlock.length = blocksize := by
  simp [zeroBlock]

theorem xor_slice_length (a b : List Nat) :
    (xor_slice a b).length = min a.length b.length := by
  simp [xor_slice]

theorem xor_slice_cancel_right :
    ∀ a b : List Nat, a.length = b.length → xor_slice (xor_slice a b) b = a
  | [], [], _ => rfl
  | x :: a, y :: b, h => by
    have ih := xor_slice_cancel_right a b (by simpa using h)
    simp only [xor_slice, List.zipWith_cons_cons] at ih ⊢
    rw [Nat.xor_cancel_right, ih]

theorem xor_slice_cancel_fst :
    ∀ a b : List Nat, a.length = b.length → xor_slice (xor_slice a b) a = b
  | [], [], _ => rfl
  | x :: a, y :: b, h => by
    have ih := xor_slice_cancel_fst a b (by simpa using h)
    simp only [xor_slice, List.zipWith_cons_cons] at ih ⊢
    rw [Nat.xor_comm x y, Nat.xor_cancel_right, ih]

theorem xor_slice_replicate_zero :
    ∀ (a : List Nat) (n : Nat), a.length ≤ n →
      xor_slice (List.replicate n 0) a = a
  | [], _, _ => by simp [xor_slice]
  | x :: a, n + 1, h => by
    have ih := xor_slice_replicate_zero a n (by simpa using h)
    simp only [xor_slice, List.replicate_succ, List.zipWith_cons_cons] at ih ⊢
    rw [Nat.zero_xor, ih]

theorem xor_slice_zeroBlock (a : List Nat) (h : a.length = blocksize) :
    xor_slice zeroBlock a = a :=
  xor_slice_replicate_zero a blocksize (le_of_eq h)

theorem xor_slice_right_comm :
    ∀ b x y : List Nat, xor_slice (xor_slice b x) y = xor_slice (xor_slice b y) x
  | [], _, _ => by simp [xor_slice]
  | _ :: _, [], [] => by simp [xor_slice]
  | _ :: _, [], _ :: _ => by simp [xor_slice]
  | _ :: _, _ :: _, [] => by simp [xor_slice]
  | b₀ :: b, x₀ :: x, y₀ :: y => by
    have ih := xor_slice_right_comm b x y
    simp only [xor_slice, List.zipWith_cons_cons] at ih ⊢
    rw [Nat.xor_assoc, Nat.xor_assoc, Nat.xor_comm x₀ y₀, ih]

instance : RightCommutative xor_slice := ⟨xor_slice_right_comm⟩

/-! Unfolding lemmas for the success paths of `encode_sha1` and
`decode_sha1`. -/

theorem encode_sha1_ok (H : List Nat → List Nat) (R m p : List Nat)
    (hp : p.length = blocksize) (hm : m.length % blocksize = 0) :
    encode_sha1 H R m p =
      Except.ok ((encodeLoop H R p (m.length / blocksize) m 1 zeroBlock).1 ++
        xor_slice (encodeLoop H R p (m.length / blocksize) m 1 zeroBlock).2 R) := by
  simp [encode_sha1, hp, hm]

theorem decode_sha1_ok (H : List Nat → List Nat) (t p : List Nat)
    (ht : t.length % blocksize = 0) (hp : p.length = blocksize)
    (hlen : blocksize ≤ t.length) :
    decode_sha1 H t p =
      Except.ok (decodePass2 H
        (decodePass1 H p (t.length / blocksize) (t.length / blocksize) t 1
          zeroBlock zeroBlock).2
        (t.length / blocksize - 1) t 1) := by
  simp [decode_sha1, ht, hp, Nat.not_lt.mpr hlen]

/-! Structural lemmas about the encoder loop and the decoder passes.  The
step lemmas below restate one unfolding of each recursion, so that proofs can
unfold exactly one loop iteration at a time. -/

theorem encodeLoop_succ (H : List Nat → List Nat) (R public : List Nat)
    (fuel : Nat) (msg : List Nat) (i : Nat) (sum : List Nat) :
    encodeLoop H R public (fuel + 1) msg i sum =
      (xor_slice (msg.take blocksize) (H (R ++ be32 i)) ++
        (encodeLoop H R public fuel (msg.drop blocksize) (i + 1)
          (xor_slice sum (H (public ++
            xor_slice (msg.take blocksize) (H (R ++ be32 i)) ++ be32 i)))).1,
       (encodeLoop H R public fuel (msg.drop blocksize) (i + 1)
          (xor_slice sum (H (public ++
            xor_slice (msg.take blocksize) (H (R ++ be32 i)) ++ be32 i)))).2) :=
  rfl

theorem decodePass1_succ (H : List Nat → List Nat) (public : List Nat)
    (blocks fuel : Nat) (msg : List Nat) (i : Nat) (sum r : List Nat) :
    decodePass1 H public blocks (fuel + 1) msg i sum r =
      if i < blocks then
        decodePass1 H public blocks fuel (msg.drop blocksize) (i + 1)
          (xor_slice sum (H (public ++ msg.take blocksize ++ be32 i))) r
      else
        decodePass1 H public blocks fuel (msg.drop blocksize) (i + 1) sum
          (xor_slice (msg.take blocksize) sum) :=
  rfl

theorem decodePass2_succ (H : List Nat → List Nat) (R : List Nat)
    (fuel : Nat) (msg : List Nat) (i : Nat) :
    decodePass2 H R (fuel + 1) msg i =
      xor_slice (msg.take blocksize) (H (R ++ be32 i)) ++
        decodePass2 H R fuel (msg.drop blocksize) (i + 1) :=
  rfl

theorem encodeLoop_fst_length (H : List Nat → List Nat) (R public : List Nat)
    (hH : ∀ x, (H x).length = blocksize) :
    ∀ (fuel : Nat) (msg : List Nat) (i : Nat) (sum : List Nat),
      blocksize * fuel ≤ msg.length →
      ((encodeLoop H R public fuel msg i sum).1).length = blocksize * fuel
  | 0, _, _, _, _ => by simp [encodeLoop]
  | fuel + 1, msg, i, sum, h => by
    rw [Nat.mul_succ] at h ⊢
    have hrec : blocksize * fuel ≤ (msg.drop blocksize).length := by
      simp only [List.length_drop]
      omega
    rw [encodeLoop_succ]
    simp only [List.length_append, xor_slice_length, List.length_take, hH,
      encodeLoop_fst_length H R public hH fuel (msg.drop blocksize) (i + 1) _ hrec]
    omega

theorem encodeLoop_snd_length (H : List Nat → List Nat) (R public : List Nat)
    (hH : ∀ x, (H x).length = blocksize) :
    ∀ (fuel : Nat) (msg : List Nat) (i : Nat) (sum : List Nat),
      sum.length = blocksize →
      ((encodeLoop H R public fuel msg i sum).2).length = blocksize
  | 0, _, _, _, h => h
  | fuel + 1, msg, i, sum, h => by
    rw [encodeLoop_succ]
    exact encodeLoop_snd_length H R public hH fuel (msg.drop blocksize) (i + 1) _
      (by simp [xor_slice_length, h, hH])

theorem decodePass1_encodeLoop (H : List Nat → List Nat) (R public : List Nat)
    (hH : ∀ x, (H x).length = blocksize) :
    ∀ (fuel : Nat) (msg : List Nat) (i : Nat) (sum r₀ trailer : List Nat),
      msg.length = blocksize * fuel →
      decodePass1 H public (i + fuel) (fuel + 1)
        ((encodeLoop H R public fuel msg i sum).1 ++ trailer) i sum r₀ =
      ((encodeLoop H R public fuel msg i sum).2,
        xor_slice (trailer.take blocksize) (encodeLoop H R public fuel msg i sum).2)
  | 0, msg, i, sum, r₀, trailer, h => by
    have hmsg : msg = [] := List.eq_nil_of_length_eq_zero (by simpa using h)
    subst hmsg
    rw [decodePass1_succ]
    simp [encodeLoop, decodePass1]
  | fuel + 1, msg, i, sum, r₀, trailer, h => by
    rw [Nat.mul_succ] at h
    have htake : (msg.take blocksize).length = blocksize := by
      simp only [List.length_take]
      omega
    have ht : (xor_slice (msg.take blocksize) (H (R ++ be32 i))).length = blocksize := by
      simp [xor_slice_length, htake, hH]
    have hdrop : (msg.drop blocksize).length = blocksize * fuel := by
      simp only [List.length_drop]
      omega
    have hblocks : i + (fuel + 1) = i + 1 + fuel := by omega
    rw [encodeLoop_succ, decodePass1_succ,
      if_pos (show i < i + (fuel + 1) by omega)]
    simp only [List.append_assoc, List.take_left' ht, List.drop_left' ht, hblocks]
    exact decodePass1_encodeLoop H R public hH fuel (msg.drop blocksize) (i + 1) _ r₀
      trailer hdrop

theorem decodePass2_encodeLoop (H : List Nat → List Nat) (R public : List Nat)
    (hH : ∀ x, (H x).length = blocksize) :
    ∀ (fuel : Nat) (msg : List Nat) (i : Nat) (sum trailer : List Nat),
      msg.length = blocksize * fuel →
      decodePass2 H R fuel
        ((encodeLoop H R public fuel msg i sum).1 ++ trailer) i = msg
  | 0, msg, _, _, _, h => by
    have hmsg : msg = [] := List.eq_nil_of_length_eq_zero (by simpa using h)
    subst hmsg
    simp [decodePass2]
  | fuel + 1, msg, i, sum, trailer, h => by
    rw [Nat.mul_succ] at h
    have htake : (msg.take blocksize).length = blocksize := by
      simp only [List.length_take]
      omega
    have hhash : (H (R ++ be32 i)).length = blocksize := hH _
    have ht : (xor_slice (msg.take blocksize) (H (R ++ be32 i))).length = blocksize := by
      simp [xor_slice_length, htake, hhash]
    have hdrop : (msg.drop blocksize).length = blocksize * fuel := by
      simp only [List.length_drop]
      omega
    rw [encodeLoop_succ, decodePass2_succ]
    simp only [List.append_assoc, List.take_left' ht, List.drop_left' ht]
    rw [decodePass2_encodeLoop H R public hH fuel (msg.drop blocksize) (i + 1) _
      trailer hdrop]
    rw [xor_slice_cancel_right _ _ (htake.trans hhash.symm)]
    exact List.take_append_drop blocksize msg

theorem decodePass2_length (H : List Nat → List Nat) (R : List Nat)
    (hH : ∀ x, (H x).length = blocksize) :
    ∀ (fuel : Nat) (msg : List Nat) (i : Nat), blocksize * fuel ≤ msg.length →
      (decodePass2 H R fuel msg i).length = blocksize * fuel
  | 0, _, _, _ => by simp [decodePass2]
  | fuel + 1, msg, i, h => by
    rw [Nat.mul_succ] at h ⊢
    have hrec : blocksize * fuel ≤ (msg.drop blocksize).length := by
      simp only [List.length_drop]
      omega
    rw [decodePass2_succ]
    simp only [List.length_append, xor_slice_length, List.length_take, hH,
      decodePass2_length H R hH fuel (msg.drop blocksize) (i + 1) hrec]
    omega

theorem encodeLoop_closed (H : List Nat → List Nat) (R public : List Nat) :
    ∀ (fuel : Nat) (msg : List Nat) (i : Nat) (sum : List Nat),
      encodeLoop H R public fuel msg i sum =
        (((List.range fuel).map fun k =>
            xor_slice ((msg.drop (blocksize * k)).take blocksize)
              (H (R ++ be32 (i + k)))).flatten,
         ((List.range fuel).map fun k =>
            H (public ++ xor_slice ((msg.drop (blocksize * k)).take blocksize)
              (H (R ++ be32 (i + k))) ++ be32 (i + k))).foldl xor_slice sum)
  | 0, msg, i, sum => by simp [encodeLoop]
  | fuel + 1, msg, i, sum => by
    rw [encodeLoop_succ,
      encodeLoop_closed H R public fuel (msg.drop blocksize) (i + 1) _]
    have hk1 : ∀ k : Nat, i + 1 + k = i + (k + 1) := fun k => by omega
    have hk2 : ∀ k : Nat, blocksize + blocksize * k = blocksize * (k + 1) :=
      fun k => by ring
    simp only [List.range_succ_eq_map, List.map_cons, List.map_map,
      List.flatten_cons, List.foldl_cons, Function.comp_def, Nat.succ_eq_add_one,
      List.drop_drop, hk1, hk2, List.drop_zero, Nat.mul_zero, Nat.add_zero]

/-! Settling the specification's claims. -/

/-- Claim C1: for every message whose length is a positive multiple of the
block size and every public parameter of block length, decoding the encoding
returns the original message, for any random key `R` generated inside encode
(any block `R`) and for the SHA-1 collaborator (any hash of output length
`blocksize`). -/
theorem decode_encode_roundtrip (H : List Nat → List Nat) (R m p : List Nat)
    (hH : ∀ x, (H x).length = blocksize) (hR : R.length = blocksize)
    (hp : p.length = blocksize) (hm : m.length % blocksize = 0)
    (hpos : 0 < m.length) :
    ∃ t, encode_sha1 H R m p = Except.ok t ∧ decode_sha1 H t p = Except.ok m := by
  have hdvd : blocksize ∣ m.length := Nat.dvd_of_mod_eq_zero hm
  obtain ⟨n, hlen⟩ : ∃ n, m.length = blocksize * n :=
    ⟨_, (Nat.mul_div_cancel' hdvd).symm⟩
  have hdiv : m.length / blocksize = n := by
    rw [hlen, Nat.mul_div_cancel_left _ blocksize_pos]
  obtain ⟨ts, S, hE⟩ : ∃ ts S, encodeLoop H R p n m 1 zeroBlock = (ts, S) :=
    ⟨_, _, rfl⟩
  have hts : ts.length = blocksize * n := by
    have h := encodeLoop_fst_length H R p hH n m 1 zeroBlock (le_of_eq hlen.symm)
    rwa [hE] at h
  have hS : S.length = blocksize := by
    have h := encodeLoop_snd_length H R p hH n m 1 zeroBlock zeroBlock_length
    rwa [hE] at h
  have hT : (xor_slice S R).length = blocksize := by
    rw [xor_slice_length, hS, hR, Nat.min_self]
  refine ⟨ts ++ xor_slice S R, ?_, ?_⟩
  · rw [encode_sha1_ok H R m p hp hm, hdiv, hE]
  · have htlen : (ts ++ xor_slice S R).length = blocksize * (n + 1) := by
      rw [List.length_append, hts, hT, Nat.mul_succ]
    have hmod : (ts ++ xor_slice S R).length % blocksize = 0 := by
      rw [htlen]
      exact Nat.mul_mod_right _ _
    have hge : blocksize ≤ (ts ++ xor_slice S R).length := by
      rw [htlen, Nat.mul_succ]
      omega
    have hblocks : (ts ++ xor_slice S R).length / blocksize = n + 1 := by
      rw [htlen, Nat.mul_div_cancel_left _ blocksize_pos]
    rw [decode_sha1_ok H _ p hmod hp hge, hblocks]
    have h1 := decodePass1_encodeLoop H R p hH n m 1 zeroBlock zeroBlock
      (xor_slice S R) hlen
    rw [hE, Nat.add_comm 1 n, List.take_of_length_le (le_of_eq hT),
      xor_slice_cancel_fst S R (hS.trans hR.symm)] at h1
    rw [h1]
    have h2 := decodePass2_encodeLoop H R p hH n m 1 zeroBlock
      (xor_slice S R) hlen
    rw [hE] at h2
    simp only [Nat.add_sub_cancel]
    exact congrArg Except.ok h2

/-- Witness for C1 at a concrete input. -/
theorem decode_encode_roundtrip_witness :
    ∃ t, encode_sha1 (fun _ => zeroBlock) zeroBlock (List.replicate 20 1)
        zeroBlock = Except.ok t ∧
      decode_sha1 (fun _ => zeroBlock) t zeroBlock =
        Except.ok (List.replicate 20 1) :=
  decode_encode_roundtrip (fun _ => zeroBlock) zeroBlock (List.replicate 20 1)
    zeroBlock (fun _ => zeroBlock_length) (by decide) (by decide) (by decide)
    (by decide)

/-- Claim C2: on every valid input, the encoder's output consists of the `n`
outer-masked blocks `message_i XOR H(R ++ BE32 i)` for `i` in `1..=n`
followed by the trailer `S XOR R`, where `S` is the XOR-fold of
`H(public ++ transformed_i ++ BE32 i)` over the already-masked blocks and the
counter is serialized as a 4-byte big-endian integer (`spec_encode` writes
out exactly this formula from the spec). -/
theorem encode_sha1_matches_spec (H : List Nat → List Nat) (R m p : List Nat)
    (hp : p.length = blocksize) (hm : m.length % blocksize = 0) :
    encode_sha1 H R m p = Except.ok (spec_encode H R m p) := by
  rw [encode_sha1_ok H R m p hp hm,
    encodeLoop_closed H R p (m.length / blocksize) m 1 zeroBlock]
  have hk1 : ∀ k : Nat, 1 + k = k + 1 := fun k => by omega
  simp only [spec_encode, specS, checksumContribs, specTransformed, specChunk,
    Nat.add_sub_cancel, hk1]

/-- Witness for C2 at a concrete input. -/
theorem encode_sha1_matches_spec_witness :
    encode_sha1 (fun x => List.replicate 20 (x.length % 256))
        (List.replicate 20 9) (List.replicate 40 1) (List.replicate 20 2) =
      Except.ok (spec_encode (fun x => List.replicate 20 (x.length % 256))
        (List.replicate 20 9) (List.replicate 40 1) (List.replicate 20 2)) :=
  encode_sha1_matches_spec (fun x => List.replicate 20 (x.length % 256))
    (List.replicate 20 9) (List.replicate 40 1) (List.replicate 20 2)
    (by decide) (by decide)

/-- Claim C3: on valid inputs the encoder's output is exactly one block
longer than the message and the decoder's output exactly one block shorter
than its input buffer. -/
theorem length_contracts (H : List Nat → List Nat) (R m t p : List Nat)
    (hH : ∀ x, (H x).length = blocksize) (hR : R.length = blocksize)
    (hp : p.length = blocksize) (hm : m.length % blocksize = 0)
    (ht : t.length % blocksize = 0) (htlen : blocksize ≤ t.length) :
    (∃ e, encode_sha1 H R m p = Except.ok e ∧
      e.length = m.length + blocksize) ∧
    (∃ d, decode_sha1 H t p = Except.ok d ∧
      d.length = t.length - blocksize) := by
  constructor
  · refine ⟨_, encode_sha1_ok H R m p hp hm, ?_⟩
    have hdvd : blocksize ∣ m.length := Nat.dvd_of_mod_eq_zero hm
    have hlen' : blocksize * (m.length / blocksize) = m.length :=
      Nat.mul_div_cancel' hdvd
    have h1 := encodeLoop_fst_length H R p hH (m.length / blocksize) m 1
      zeroBlock (le_of_eq hlen')
    have h2 := encodeLoop_snd_length H R p hH (m.length / blocksize) m 1
      zeroBlock zeroBlock_length
    rw [List.length_append, h1, hlen', xor_slice_length, h2, hR, Nat.min_self]
  · refine ⟨_, decode_sha1_ok H t p ht hp htlen, ?_⟩
    have hdvd : blocksize ∣ t.length := Nat.dvd_of_mod_eq_zero ht
    have hlen' : blocksize * (t.length / blocksize) = t.length :=
      Nat.mul_div_cancel' hdvd
    have hfuel : blocksize * (t.length / blocksize - 1) ≤ t.length :=
      calc blocksize * (t.length / blocksize - 1)
          ≤ blocksize * (t.length / blocksize) :=
            Nat.mul_le_mul_left _ (Nat.sub_le _ _)
        _ = t.length := hlen'
    rw [decodePass2_length H _ hH _ t 1 hfuel]
    have hq : 1 ≤ t.length / blocksize := by
      rw [Nat.le_div_iff_mul_le blocksize_pos]
      simpa using htlen
    have hsucc : blocksize * (t.length / blocksize - 1) + blocksize =
        blocksize * (t.length / blocksize) := by
      rw [← Nat.mul_succ]
      congr 1
      omega
    omega

/-- Witness for C3 at a concrete input. -/
theorem length_contracts_witness :
    (∃ e, encode_sha1 (fun _ => zeroBlock) zeroBlock (List.replicate 40 3)
        zeroBlock = Except.ok e ∧
      e.length = (List.replicate 40 3 : List Nat).length + blocksize) ∧
    (∃ d, decode_sha1 (fun _ => zeroBlock) (List.replicate 60 4) zeroBlock =
        Except.ok d ∧
      d.length = (List.replicate 60 4 : List Nat).length - blocksize) :=
  length_contracts (fun _ => zeroBlock) zeroBlock (List.replicate 40 3)
    (List.replicate 60 4) zeroBlock (fun _ => zeroBlock_length) (by decide)
    (by decide) (by decide) (by decide) (by decide)

/-- Claim C4: the checksum is order-independent: folding the per-block
checksum contributions in any permuted order yields the same value `S` as
the in-order fold performed by the encoder. -/
theorem checksum_order_independence (H : List Nat → List Nat)
    (R m p : List Nat) (n : Nat) (l : List (List Nat))
    (hperm : (checksumContribs H R m p n).Perm l) :
    l.foldl xor_slice zeroBlock = specS H R m p n :=
  (hperm.foldl_eq zeroBlock).symm

/-- Witness for C4: folding the two contributions of a two-block message in
reversed order. -/
theorem checksum_order_independence_witness :
    ((checksumContribs (fun x => List.replicate 20 (x.length % 256))
        (List.replicate 20 3) (List.replicate 40 5) (List.replicate 20 7)
        2).reverse).foldl xor_slice zeroBlock =
      specS (fun x => List.replicate 20 (x.length % 256))
        (List.replicate 20 3) (List.replicate 40 5) (List.replicate 20 7) 2 :=
  checksum_order_independence (fun x => List.replicate 20 (x.length % 256))
    (List.replicate 20 3) (List.replicate 40 5) (List.replicate 20 7) 2 _
    (List.reverse_perm _).symm

/-- Counterexample to claim C5 as stated: with a misaligned 19-byte message
AND a 19-byte public parameter, `encode_sha1` fails with
`InvalidParameterLength` (the public-length assertion runs first, source
line 177), not with `InvalidMessageLength` as the claim requires for every
public parameter. -/
theorem encode_misaligned_counterexample :
    encode_sha1 (fun _ => zeroBlock) zeroBlock (List.replicate 19 0)
        (List.replicate 19 0) = Except.error AontError.invalidParameterLength ∧
      encode_sha1 (fun _ => zeroBlock) zeroBlock (List.replicate 19 0)
        (List.replicate 19 0) ≠ Except.error AontError.invalidMessageLength := by
  decide

/-- Claim C5 as amended: for every message whose length is not a multiple of
the block size and every public parameter of block length, `encode_sha1`
fails with `InvalidMessageLength` and produces no output. -/
theorem encode_misaligned_rejected (H : List Nat → List Nat) (R m p : List Nat)
    (hp : p.length = blocksize) (hm : m.length % blocksize ≠ 0) :
    encode_sha1 H R m p = Except.error AontError.invalidMessageLength := by
  simp [encode_sha1, hp, hm]

/-- Witness for amended C5 at a concrete input (19-byte message, valid
public parameter). -/
theorem encode_misaligned_rejected_witness :
    encode_sha1 (fun _ => zeroBlock) zeroBlock (List.replicate 19 0)
        zeroBlock = Except.error AontError.invalidMessageLength :=
  encode_misaligned_rejected (fun _ => zeroBlock) zeroBlock
    (List.replicate 19 0) zeroBlock (by decide) (by decide)

/-- Counterexample to claim C6 as stated: with a 40-byte public parameter
but a 19-byte (misaligned) transformed buffer, `decode_sha1` fails with
`InvalidMessageLength` (the alignment check runs first, source line 268),
not with `InvalidParameterLength` as the claim requires regardless of the
buffer supplied. -/
theorem decode_public_length_counterexample :
    decode_sha1 (fun _ => zeroBlock) (List.replicate 19 0)
        (List.replicate 40 0) = Except.error AontError.invalidMessageLength ∧
      decode_sha1 (fun _ => zeroBlock) (List.replicate 19 0)
        (List.replicate 40 0) ≠ Except.error AontError.invalidParameterLength := by
  decide

/-- Claim C6 as amended: a public parameter whose length differs from the
block size makes `encode_sha1` fail with `InvalidParameterLength` regardless
of the message, and makes `decode_sha1` fail with `InvalidParameterLength`
for every transformed buffer whose length is a multiple of the block size
(for misaligned buffers the decoder's alignment check fires first). -/
theorem public_length_rejected (H : List Nat → List Nat) (R m t p : List Nat)
    (hp : p.length ≠ blocksize) (ht : t.length % blocksize = 0) :
    encode_sha1 H R m p = Except.error AontError.invalidParameterLength ∧
      decode_sha1 H t p = Except.error AontError.invalidParameterLength := by
  constructor
  · simp [encode_sha1, hp]
  · simp [decode_sha1, ht, hp]

/-- Witness for amended C6 at a concrete input (40-byte public parameter,
19-byte message for encode, 40-byte buffer for decode). -/
theorem public_length_rejected_witness :
    encode_sha1 (fun _ => zeroBlock) zeroBlock (List.replicate 19 1)
        (List.replicate 40 0) = Except.error AontError.invalidParameterLength ∧
      decode_sha1 (fun _ => zeroBlock) (List.replicate 40 2)
        (List.replicate 40 0) = Except.error AontError.invalidParameterLength :=
  public_length_rejected (fun _ => zeroBlock) zeroBlock (List.replicate 19 1)
    (List.replicate 40 2) (List.replicate 40 0) (by decide) (by decide)

/-- Claim C7 fails on the empty buffer: `decode_sha1` has no
`len >= blocksize` check, so the empty buffer (length `0`, which satisfies
`0 % blocksize = 0`) passes both validation checks and the call fails at the
usize subtraction `message.len() - blocksize` (a subtract-overflow panic in
the Rust source), not with `InvalidMessageLength`.  Buffers of length `1`
to `blocksize - 1` do fail with `InvalidMessageLength` as claimed. -/
theorem decode_empty_buffer_underflow :
    decode_sha1 (fun _ => zeroBlock) [] zeroBlock =
        Except.error AontError.subtractOverflow ∧
      decode_sha1 (fun _ => zeroBlock) [] zeroBlock ≠
        Except.error AontError.invalidMessageLength ∧
      decode_sha1 (fun _ => zeroBlock) (List.replicate 19 0) zeroBlock =
        Except.error AontError.invalidMessageLength := by
  decide

/-- Claim C9: the decoder is total on well-formed inputs: any buffer whose
length is a positive multiple of the block size decodes successfully with
any block-sized public parameter, regardless of content (no integrity check
is performed). -/
theorem decode_total_on_wellformed (H : List Nat → List Nat) (t p : List Nat)
    (ht : t.length % blocksize = 0) (htlen : blocksize ≤ t.length)
    (hp : p.length = blocksize) :
    ∃ out, decode_sha1 H t p = Except.ok out :=
  ⟨_, decode_sha1_ok H t p ht hp htlen⟩

/-- Witness for C9 at a concrete (arbitrary-content) input. -/
theorem decode_total_on_wellformed_witness :
    ∃ out, decode_sha1 (fun _ => zeroBlock) (List.replicate 40 7) zeroBlock =
      Except.ok out :=
  decode_total_on_wellformed (fun _ => zeroBlock) (List.replicate 40 7)
    zeroBlock (by decide) (by decide) (by decide)

/-- Claim C10: the zero-block edge case: encoding the empty message yields
exactly the random block `R` (the checksum fold over zero blocks is the zero
block, so the trailer `S XOR R` equals `R`), and decoding any single-block
buffer yields the empty message. -/
theorem zero_block_edge_case (H : List Nat → List Nat) (R t p : List Nat)
    (hR : R.length = blocksize) (hp : p.length = blocksize)
    (ht : t.length = blocksize) :
    encode_sha1 H R [] p = Except.ok R ∧
      decode_sha1 H t p = Except.ok [] := by
  constructor
  · rw [encode_sha1_ok H R [] p hp (by simp)]
    simp [encodeLoop, Nat.zero_div, xor_slice_zeroBlock R hR]
  · rw [decode_sha1_ok H t p (by rw [ht]; exact Nat.mod_self _) hp
      (le_of_eq ht.symm)]
    rw [ht, Nat.div_self blocksize_pos]
    simp [decodePass2]

/-- Witness for C10 at a concrete input. -/
theorem zero_block_edge_case_witness :
    encode_sha1 (fun _ => zeroBlock) (List.replicate 20 8) []
        zeroBlock = Except.ok (List.replicate 20 8) ∧
      decode_sha1 (fun _ => zeroBlock) (List.replicate 20 6) zeroBlock =
        Except.ok [] :=
  zero_block_edge_case (fun _ => zeroBlock) (List.replicate 20 8)
    (List.replicate 20 6) zeroBlock (by decide) (by decide) (by decide)

end Aont
